import Mathlib

/-!
# Shallow embedding of the vectorlink comparator and domain layer

This file embeds the product-quantization comparator engine
(`src/vectorlink/src/comparator.rs`) and the domain / derived-domain
orchestrator (`src/vectorlink/src/domain.rs`) of the vectorlink repository.

Conventions:
* `f32` values are modelled as rationals (`ℚ`); the only irrational
  operation, the final square root in the quantized `compare_raw`, is taken
  in `ℝ` at that boundary.
* `u16` values are modelled as `ℕ` with explicit `% 65536` wherever the
  source performs 16-bit arithmetic.
* Fallible operations (file reads, panicking vector indexing, failed
  assertions) are modelled with `Option` / explicit success flags.
* The source duplicates each engine for the two chunk widths (16 and 32);
  the logic is identical, so it is embedded once, generic in the width `w`,
  with the width-specialised source names provided as abbreviations.
-/

namespace Vectorlink

/-- A product-quantization centroid of width `w`: source type `[f32; w]`
(`vecmath::Centroid16` / `vecmath::Centroid32`). -/
abbrev Centroid (w : ℕ) : Type := Fin w → ℚ

/-- Source `Centroid32 = [f32; 32]`. -/
abbrev Centroid32 : Type := Centroid 32

/-- Source `Centroid16 = [f32; 16]`. -/
abbrev Centroid16 : Type := Centroid 16

/-- The all-zeroes centroid, `Centroid32::default()` / `Centroid16::default()`. -/
def zeroCentroid (w : ℕ) : Centroid w := fun _ => 0

/-- Modelled from the spec: `vecmath::euclidean_partial_distance_16/_32`
(vecmath.rs is not under src/). Per the spec the partial distance is the
per-chunk building block whose sum, under a final square root, yields the
Euclidean distance of the concatenation, i.e. the squared Euclidean
distance of one chunk. -/
def euclidean_partial_distance {w : ℕ} (a b : Centroid w) : ℚ :=
  ∑ i, (a i - b i) ^ 2

/-- Source struct `MemoizedPartialDistances32` / `MemoizedPartialDistances16`:
a flat row-major `size × size` table of partial distances. The two source
structs are field-for-field identical, so a single structure models both. -/
structure MemoizedPartialDistances where
  partial_distances : List ℚ
  size : ℕ

/-- Source `MemoizedPartialDistances{16,32}::new`: recompute the complete
`size * size` table, entry `c` holding the partial distance between
centroids `c / size` and `c % size`. -/
def MemoizedPartialDistances.newTable {w : ℕ} (vectors : List (Centroid w)) :
    MemoizedPartialDistances :=
  { partial_distances :=
      (List.range (vectors.length * vectors.length)).map fun c =>
        euclidean_partial_distance
          (vectors.getD (c / vectors.length) (zeroCentroid w))
          (vectors.getD (c % vectors.length) (zeroCentroid w))
    size := vectors.length }

/-- Source `MemoizedPartialDistances32::new` (width 32). -/
def MemoizedPartialDistances32.new (vectors : List Centroid32) :
    MemoizedPartialDistances :=
  MemoizedPartialDistances.newTable vectors

/-- Source `MemoizedPartialDistances16.new` (width 16). -/
def MemoizedPartialDistances16.new (vectors : List Centroid16) :
    MemoizedPartialDistances :=
  MemoizedPartialDistances.newTable vectors

/-- The flat index computed by `partial_distance`:
`(i * self.size as u16 + j) as usize`, i.e. the whole computation is done
in wrapping unsigned 16-bit arithmetic (`size` truncated to `u16`, the
multiplication and the addition each reduced modulo `2^16`). -/
def MemoizedPartialDistances.tableIndex (size i j : ℕ) : ℕ :=
  (i % 65536 * (size % 65536) % 65536 + j % 65536) % 65536

/-- Source `MemoizedPartialDistances{16,32}::partial_distance`:
`self.partial_distances[(i * self.size as u16 + j) as usize]`.
An out-of-bounds index panics, modelled as `none`. -/
def MemoizedPartialDistances.partial_distance (T : MemoizedPartialDistances)
    (i j : ℕ) : Option ℚ :=
  T.partial_distances[MemoizedPartialDistances.tableIndex T.size i j]?

/-- Source struct `Centroid32Comparator` / `Centroid16Comparator`: the
centroid vocabulary plus its memoized distance table. The `Arc<RwLock<…>>`
(32) versus copy-on-write `Arc<…>` (16) wrappers affect only locking, not
the functional behaviour, so one structure models both. -/
structure CentroidComparator (w : ℕ) where
  distances : MemoizedPartialDistances
  centroids : List (Centroid w)

abbrev Centroid32Comparator : Type := CentroidComparator 32

abbrev Centroid16Comparator : Type := CentroidComparator 16

/-- Source `impl pq::VectorStore for Centroid{16,32}Comparator`, `fn store`:
append the incoming centroids, record their assigned ids starting at the old
length, and rebuild the full distance table from scratch. -/
def CentroidComparator.store {w : ℕ} (c : CentroidComparator w)
    (incoming : List (Centroid w)) : CentroidComparator w × List ℕ :=
  let data := c.centroids ++ incoming
  ({ distances := MemoizedPartialDistances.newTable data, centroids := data },
   (List.range incoming.length).map fun i => c.centroids.length + i)

/-- A persisted binary file: its byte size plus the fixed-width records its
bytes decode to (the source dumps/reads raw little-endian bytes; the byte
codec itself lives outside the embedded logic, so a file is abstracted as
its size together with its decoded record stream). -/
structure ByteFile (α : Type) where
  size : ℕ
  record : ℕ → α

/-- `CENTROID_32_BYTE_LENGTH = size_of::<Centroid32>() = 32 * 4` (the
constant lives in vecmath.rs; value fixed by the spec: record width =
centroid width × 4 bytes). -/
def CENTROID_32_BYTE_LENGTH : ℕ := 32 * 4

/-- `CENTROID_16_BYTE_LENGTH = size_of::<Centroid16>() = 16 * 4`. -/
def CENTROID_16_BYTE_LENGTH : ℕ := 16 * 4

/-- Record byte width of a `Centroid w` file: `w` little-endian 4-byte floats. -/
def centroidByteLength (w : ℕ) : ℕ := w * 4

/-- Source `impl Serializable for Centroid{16,32}Comparator`, `fn serialize`:
dump the centroid list as `len * centroidByteLength w` raw bytes. -/
def CentroidComparator.serialize {w : ℕ} (c : CentroidComparator w) :
    ByteFile (Centroid w) :=
  { size := c.centroids.length * centroidByteLength w
    record := fun i => c.centroids.getD i (zeroCentroid w) }

/-- Source `impl Serializable for Centroid{16,32}Comparator`, `fn deserialize`:
`assert_eq!(0, size % CENTROID_*_BYTE_LENGTH)` (a failed assertion aborts,
modelled as `none`), then read `size / record_width` centroid records and
rebuild the full distance table. -/
def CentroidComparator.deserialize {w : ℕ} (f : ByteFile (Centroid w)) :
    Option (CentroidComparator w) :=
  if f.size % centroidByteLength w = 0 then
    let vec := (List.range (f.size / centroidByteLength w)).map f.record
    some { distances := MemoizedPartialDistances.newTable vec, centroids := vec }
  else none

/-- `QUANTIZED_32_EMBEDDING_LENGTH = 48`: number of 32-wide chunks of a raw
embedding (the constant lives in vecmath.rs; the value is pinned by the
source call `vecmath::sum_48` in `Quantized32Comparator::compare_raw`). -/
def QUANTIZED_32_EMBEDDING_LENGTH : ℕ := 48

/-- `QUANTIZED_16_EMBEDDING_LENGTH = 96`: number of 16-wide chunks of a raw
embedding (pinned by the source call `vecmath::sum_96`). -/
def QUANTIZED_16_EMBEDDING_LENGTH : ℕ := 96

/-- Source `Quantized32Embedding = [u16; 48]`: one centroid index per
32-wide chunk; `u16` values modelled as `ℕ`. -/
abbrev Quantized32Embedding : Type := Fin QUANTIZED_32_EMBEDDING_LENGTH → ℕ

/-- Source `Quantized16Embedding = [u16; 96]`. -/
abbrev Quantized16Embedding : Type := Fin QUANTIZED_16_EMBEDDING_LENGTH → ℕ

/-- Modelled from the spec: `vecmath::sum_48`, the SIMD summation kernel
over the 48 partial distances (vecmath.rs not under src/); exact summation. -/
def sum_48 (l : List ℚ) : ℚ := l.sum

/-- Modelled from the spec: `vecmath::sum_96`, summation over 96 floats. -/
def sum_96 (l : List ℚ) : ℚ := l.sum

/-- Source struct `Quantized32Comparator` / `Quantized16Comparator`: a bound
centroid engine plus the append-only list of quantized records. -/
structure QuantizedComparator (w qlen : ℕ) where
  cc : CentroidComparator w
  data : List (Fin qlen → ℕ)

abbrev Quantized32Comparator : Type :=
  QuantizedComparator 32 QUANTIZED_32_EMBEDDING_LENGTH

abbrev Quantized16Comparator : Type :=
  QuantizedComparator 16 QUANTIZED_16_EMBEDDING_LENGTH

/-- Collect a list of fallible values: the source fills a stack array in a
loop where each `partial_distance` call may panic; the first panic aborts
the whole computation (`none`). -/
def collectSomes {α : Type} : List (Option α) → Option (List α)
  | [] => some []
  | none :: _ => none
  | some x :: rest => (collectSomes rest).map (x :: ·)

/-- Source `Quantized32Comparator::compare_raw`: look up the partial
distance of the two codes at each of the 48 chunk positions, sum with
`sum_48`, take the square root. -/
noncomputable def Quantized32Comparator.compare_raw (c : Quantized32Comparator)
    (v1 v2 : Quantized32Embedding) : Option ℝ :=
  (collectSomes (List.ofFn fun ix : Fin QUANTIZED_32_EMBEDDING_LENGTH =>
      MemoizedPartialDistances.partial_distance c.cc.distances (v1 ix) (v2 ix))).map
    fun ps => Real.sqrt ((sum_48 ps : ℚ) : ℝ)

/-- Source `Quantized16Comparator::compare_raw`: 96 chunk positions,
summed with `sum_96`, then the square root. -/
noncomputable def Quantized16Comparator.compare_raw (c : Quantized16Comparator)
    (v1 v2 : Quantized16Embedding) : Option ℝ :=
  (collectSomes (List.ofFn fun ix : Fin QUANTIZED_16_EMBEDDING_LENGTH =>
      MemoizedPartialDistances.partial_distance c.cc.distances (v1 ix) (v2 ix))).map
    fun ps => Real.sqrt ((sum_96 ps : ℚ) : ℝ)

/-- Record byte width of a quantized-vector file:
`size_of::<[u16; qlen]>() = qlen * 2`. -/
def quantizedByteLength (qlen : ℕ) : ℕ := qlen * 2

/-- Source `impl Serializable for Quantized{16,32}Comparator`,
`fn deserialize`: first deserialize the bound centroid engine from the
`index` file, then `assert_eq!(0, size % size_of::<Quantized*Embedding>())`
on the `vectors` file (failed assertion modelled as `none`) and read
`size / record_width` quantized records. -/
def QuantizedComparator.deserialize {w qlen : ℕ} (index : ByteFile (Centroid w))
    (vectors : ByteFile (Fin qlen → ℕ)) : Option (QuantizedComparator w qlen) :=
  match CentroidComparator.deserialize index with
  | none => none
  | some cc =>
    if vectors.size % quantizedByteLength qlen = 0 then
      some { cc := cc
             data := (List.range (vectors.size / quantizedByteLength qlen)).map
               vectors.record }
    else none

/-- `EMBEDDING_LENGTH = 1536 = 48 * 32 = 96 * 16`: width of a raw embedding
(the constant lives in vecmath.rs; fixed by the chunk counts above). -/
def EMBEDDING_LENGTH : ℕ := 1536

/-- A raw embedding, source `Embedding = [f32; 1536]`. -/
abbrev Embedding : Type := Fin EMBEDDING_LENGTH → ℚ

/-- Source `OpenAIComparator`: wraps one raw vector domain. Modelled from the
spec where it touches vectors.rs (not under src/): the backing append-only
fixed-record vector file is abstracted as the ordered list of its records,
`get_vec i` being list indexing and `num_vecs` the list length. -/
structure OpenAIComparator where
  domain : List Embedding

/-- Source `ChunkedVecIterator::next`, iterated to exhaustion: each call
pulls items one by one, stopping after 16384, and returns `None` on an
empty chunk. Repeated calls therefore cut the stream into successive
batches of at most 16384 items. -/
def chunkedChunks {T : Type} : List T → List (List T)
  | [] => []
  | x :: xs => (x :: xs).take 16384 :: chunkedChunks ((x :: xs).drop 16384)
termination_by l => l.length
decreasing_by simp; omega

/-- Source `OpenAIComparator::vector_chunks` (`impl pq::VectorSelector`):
stream the vectors `0 .. num_vecs()` of the domain, cut into batches by
`ChunkedVecIterator`. -/
def OpenAIComparator.vector_chunks (c : OpenAIComparator) : List (List Embedding) :=
  chunkedChunks c.domain

/-- Source `OpenAIComparator`-side `num_vecs` (via `Domain::num_vecs`). -/
def OpenAIComparator.num_vecs (c : OpenAIComparator) : ℕ := c.domain.length

/-!
## Domain / derived-domain orchestrator (`domain.rs`)

The backing `VectorFile` abstraction (store.rs, not under src/) is modelled
from the spec as the ordered list of its records. A `SequentialVectorLoader`
over an external source file is modelled as its chunk stream: a list of
`(readOk, chunk)` pairs, where `readOk = false` marks a chunk whose read
fails when streamed (the `let chunk = chunk?;` failure point in
`concatenate_derived`); appends to in-memory lists always succeed.
Record types are generic: `E` is the primary element type (`[f32; SIZE]`),
`Q` the derived record type (`[u16; QUANTIZED_SIZE]`).
-/

/-- Source struct `PqDerivedDomain`: the deriver's own append-only output
file plus its trained quantizer (an immutable pure function
`HnswQuantizer::quantize`, which cannot fail). -/
structure PqDerivedDomain (E Q : Type) where
  file : List Q
  quantizer : E → Q

/-- Source `PqDerivedDomain::concatenate_derived`: for each chunk of the
loader, fail if the chunk read failed, otherwise quantize every vector of
the chunk and append the batch to the deriver's file. Returns the success
flag, the deriver state reached (on failure: with the chunks appended
before the failure retained), and the list of appended batches in order. -/
def PqDerivedDomain.concatenate_derived {E Q : Type} (d : PqDerivedDomain E Q) :
    List (Bool × List E) → Bool × PqDerivedDomain E Q × List (List Q)
  | [] => (true, d, [])
  | (readOk, chunk) :: rest =>
    if readOk then
      let qs := chunk.map d.quantizer
      let step := PqDerivedDomain.concatenate_derived
        { d with file := d.file ++ qs } rest
      (step.1, step.2.1, qs :: step.2.2)
    else (false, d, [])

/-- Source struct `Domain<T>`: name, primary vector file, and the registry
of derived domains (a map from name to deriver; modelled as an association
list in registration order). -/
structure Domain (E Q : Type) where
  name : String
  file : List E
  derived_domains : List (String × PqDerivedDomain E Q)

/-- One observable mutation performed during a `concatenate_file` call:
either one deriver appends one quantized batch to its own file, or the
primary store appends the new records. -/
inductive ConcatEvent (E Q : Type) where
  | derivedAppend (name : String) (records : List Q)
  | primaryAppend (records : List E)

/-- The records held by the external source file: the concatenation of its
chunk payloads. -/
def fileContent {E : Type} (loader : List (Bool × List E)) : List E :=
  (loader.map Prod.snd).flatten

/-- The deriver phase of `Domain::concatenate_file`: each registered deriver
in turn streams the whole source file and appends its own output; the first
failing deriver aborts the phase. Returns the success flag, the updated
registry, and the emitted events in order. -/
def Domain.concatenateDerivers {E Q : Type} :
    List (String × PqDerivedDomain E Q) → List (Bool × List E) →
    Bool × List (String × PqDerivedDomain E Q) × List (ConcatEvent E Q)
  | [], _ => (true, [], [])
  | (n, d) :: rest, loader =>
    let step := PqDerivedDomain.concatenate_derived d loader
    let evs := step.2.2.map fun qs => ConcatEvent.derivedAppend n qs
    if step.1 then
      let tail := Domain.concatenateDerivers rest loader
      (tail.1, (n, step.2.1) :: tail.2.1, evs ++ tail.2.2)
    else (false, (n, step.2.1) :: rest, evs)

/-- Source `Domain::concatenate_file`: record the old size, have every
registered deriver consume the incoming records first, and only then append
the source file's records to the primary store, returning the pair
`(old_size, new_size)`. Any deriver failure propagates (`?`) before the
primary append, yielding `none` and leaving the primary file untouched.
The event list records each observable mutation in order. -/
def Domain.concatenate_file {E Q : Type} (dom : Domain E Q)
    (loader : List (Bool × List E)) :
    Option (ℕ × ℕ) × Domain E Q × List (ConcatEvent E Q) :=
  let old := dom.file.length
  let phase := Domain.concatenateDerivers dom.derived_domains loader
  if phase.1 then
    let newRecs := fileContent loader
    (some (old, old + newRecs.length),
     { dom with file := dom.file ++ newRecs, derived_domains := phase.2.1 },
     phase.2.2 ++ [ConcatEvent.primaryAppend newRecs])
  else
    (none, { dom with derived_domains := phase.2.1 }, phase.2.2)

/-- Source `Domain::create_derived`: panic (`assert!`) if the name is
already registered — the registry is not modified; otherwise run the
trainer (`deriver.new(path, &*file)`, whose outcome — including directory
creation and any clustering/index-build failure — is the `trained`
argument); on trainer failure propagate the error without registering
anything; on success insert the new deriver under `name`. Returns the
success flag and the resulting domain. -/
def Domain.create_derived {E Q : Type} (dom : Domain E Q) (name : String)
    (trained : Option (PqDerivedDomain E Q)) : Bool × Domain E Q :=
  if dom.derived_domains.any (fun nd => nd.1 = name) then
    (false, dom)
  else
    match trained with
    | none => (false, dom)
    | some d =>
      (true, { dom with derived_domains := dom.derived_domains ++ [(name, d)] })

/-!
## Helper lemmas
-/

lemma range_map_getD {α : Type} (l : List α) (d : α) :
    (List.range l.length).map (fun i => l.getD i d) = l := by
  apply List.ext_getElem
  · simp
  · intro i h1 h2
    simp [List.getD_eq_getElem l d h2, List.getElem?_eq_getElem h2]

lemma euclidean_partial_distance_symm {w : ℕ} (a b : Centroid w) :
    euclidean_partial_distance a b = euclidean_partial_distance b a := by
  unfold euclidean_partial_distance
  exact Finset.sum_congr rfl fun i _ => by ring

lemma euclidean_partial_distance_self {w : ℕ} (a : Centroid w) :
    euclidean_partial_distance a a = 0 := by
  simp [euclidean_partial_distance]

lemma newTable_size {w : ℕ} (vs : List (Centroid w)) :
    (MemoizedPartialDistances.newTable vs).size = vs.length := rfl

lemma newTable_length {w : ℕ} (vs : List (Centroid w)) :
    (MemoizedPartialDistances.newTable vs).partial_distances.length =
      vs.length * vs.length := by
  simp [MemoizedPartialDistances.newTable]

lemma newTable_get? {w : ℕ} (vs : List (Centroid w)) (c : ℕ)
    (h : c < vs.length * vs.length) :
    (MemoizedPartialDistances.newTable vs).partial_distances[c]? =
      some (euclidean_partial_distance
        (vs.getD (c / vs.length) (zeroCentroid w))
        (vs.getD (c % vs.length) (zeroCentroid w))) := by
  unfold MemoizedPartialDistances.newTable
  rw [List.getElem?_map, List.getElem?_range h]
  rfl

lemma tableIndex_of_small {size i j : ℕ} (hs : size ≤ 256) (hi : i < size)
    (hj : j < size) :
    MemoizedPartialDistances.tableIndex size i j = i * size + j := by
  have h65536 : (0:ℕ) < 65536 := by norm_num
  have hi' : i < 65536 := lt_of_lt_of_le hi (le_trans hs (by norm_num))
  have hj' : j < 65536 := lt_of_lt_of_le hj (le_trans hs (by norm_num))
  have hs' : size < 65536 := lt_of_le_of_lt hs (by norm_num)
  have hmul : i * size < 65536 := by
    calc i * size ≤ 255 * 256 := Nat.mul_le_mul (by omega) hs
    _ < 65536 := by norm_num
  have hsum : i * size + j < 65536 := by
    have : i * size ≤ 255 * 256 := Nat.mul_le_mul (by omega) hs
    omega
  unfold MemoizedPartialDistances.tableIndex
  rw [Nat.mod_eq_of_lt hi', Nat.mod_eq_of_lt hs', Nat.mod_eq_of_lt hmul,
    Nat.mod_eq_of_lt hj', Nat.mod_eq_of_lt hsum]

lemma flat_div_mod {m i j : ℕ} (hj : j < m) :
    (i * m + j) / m = i ∧ (i * m + j) % m = j := by
  have hm : 0 < m := lt_of_le_of_lt (Nat.zero_le j) hj
  constructor
  · rw [Nat.add_comm, Nat.mul_comm, Nat.add_mul_div_left j i hm,
      Nat.div_eq_of_lt hj]
    omega
  · rw [Nat.add_comm, Nat.mul_comm, Nat.add_mul_mod_self_left,
      Nat.mod_eq_of_lt hj]

lemma flat_lt {m i j : ℕ} (hi : i < m) (hj : j < m) :
    i * m + j < m * m := by
  have h1 : i * m ≤ (m - 1) * m := Nat.mul_le_mul_right m (by omega)
  have h2 : (m - 1) * m + m = m * m := by
    have hm : 0 < m := lt_of_le_of_lt (Nat.zero_le j) hj
    calc (m - 1) * m + m = (m - 1 + 1) * m := by ring
    _ = m * m := by rw [Nat.sub_add_cancel hm]
  omega

/-- For an engine of at most 256 centroids the u16 index computation never
wraps, so `partial_distance` addresses the true `(i, j)` table entry. -/
lemma partial_distance_newTable_of_small {w : ℕ} (vs : List (Centroid w))
    (hs : vs.length ≤ 256) (i j : ℕ) (hi : i < vs.length) (hj : j < vs.length) :
    MemoizedPartialDistances.partial_distance
        (MemoizedPartialDistances.newTable vs) i j =
      some (euclidean_partial_distance
        (vs.getD i (zeroCentroid w)) (vs.getD j (zeroCentroid w))) := by
  unfold MemoizedPartialDistances.partial_distance
  rw [newTable_size, tableIndex_of_small hs hi hj]
  rw [newTable_get? vs (i * vs.length + j) (flat_lt hi hj)]
  obtain ⟨hdiv, hmod⟩ := flat_div_mod (i := i) hj
  rw [hdiv, hmod]

/-- `n` centroids of width 32 where centroid `k` is the constant vector `k`:
a concrete vocabulary large enough to exercise the u16 index wrap-around. -/
def constCentroids (n : ℕ) : List Centroid32 :=
  (List.range n).map fun (k : ℕ) (_i : Fin 32) => (k : ℚ)

lemma constCentroids_length (n : ℕ) : (constCentroids n).length = n := by
  simp [constCentroids]

lemma constCentroids_getD {n k : ℕ} (hk : k < n) (d : Centroid32) :
    (constCentroids n).getD k d = fun _ => (k : ℚ) := by
  rw [List.getD_eq_getElem _ _ (by simp [constCentroids, hk])]
  simp [constCentroids]

lemma epd_const (a b : ℚ) :
    euclidean_partial_distance (w := 32) (fun _ => a) (fun _ => b) =
      32 * (a - b) ^ 2 := by
  simp [euclidean_partial_distance, Finset.sum_const, Finset.card_univ]

/-- Counterexample for C5: on an engine holding 300 centroids the u16 index
arithmetic in `partial_distance` wraps, so the lookup for the valid pair
`(250, 0)` lands on the table entry of the pair `(31, 164)` while the lookup
for `(0, 250)` lands on the entry of `(0, 250)`: symmetry fails. -/
theorem partial_distance_symmetry_cex :
    MemoizedPartialDistances.partial_distance
        (MemoizedPartialDistances.newTable (constCentroids 300)) 250 0 ≠
      MemoizedPartialDistances.partial_distance
        (MemoizedPartialDistances.newTable (constCentroids 300)) 0 250 := by
  have hlen := constCentroids_length 300
  unfold MemoizedPartialDistances.partial_distance
  rw [newTable_size, hlen]
  have h1 : MemoizedPartialDistances.tableIndex 300 250 0 = 9464 := by decide
  have h2 : MemoizedPartialDistances.tableIndex 300 0 250 = 250 := by decide
  rw [h1, h2,
    newTable_get? (constCentroids 300) 9464 (by rw [hlen]; norm_num),
    newTable_get? (constCentroids 300) 250 (by rw [hlen]; norm_num), hlen]
  simp only [show (9464 : ℕ) / 300 = 31 from by norm_num,
    show (9464 : ℕ) % 300 = 164 from by norm_num,
    show (250 : ℕ) / 300 = 0 from by norm_num,
    show (250 : ℕ) % 300 = 250 from by norm_num]
  rw [constCentroids_getD (by norm_num) _, constCentroids_getD (by norm_num) _,
    constCentroids_getD (by norm_num) _, constCentroids_getD (by norm_num) _,
    epd_const, epd_const]
  simp only [ne_eq, Option.some.injEq]
  norm_num

/-- C5 (amended): for every centroid engine holding at most 256 centroids
and every pair of valid centroid indices `(a, b)`,
`partial_distance(a, b) = partial_distance(b, a)` and
`partial_distance(a, a) = 0`; with more than 256 centroids the 16-bit index
computation wraps and the properties fail (see the counterexample). -/
theorem partial_distance_symm_zero_small {w : ℕ} (vs : List (Centroid w))
    (hs : vs.length ≤ 256) (a b : ℕ) (ha : a < vs.length) (hb : b < vs.length) :
    MemoizedPartialDistances.partial_distance
        (MemoizedPartialDistances.newTable vs) a b =
      MemoizedPartialDistances.partial_distance
        (MemoizedPartialDistances.newTable vs) b a
    ∧ MemoizedPartialDistances.partial_distance
        (MemoizedPartialDistances.newTable vs) a a = some 0 := by
  refine ⟨?_, ?_⟩
  · rw [partial_distance_newTable_of_small vs hs a b ha hb,
      partial_distance_newTable_of_small vs hs b a hb ha,
      euclidean_partial_distance_symm]
  · rw [partial_distance_newTable_of_small vs hs a a ha ha,
      euclidean_partial_distance_self]

/-- Witness for the amended C5 at a concrete two-centroid engine. -/
theorem partial_distance_symm_zero_small_witness :
    MemoizedPartialDistances.partial_distance
        (MemoizedPartialDistances.newTable
          [zeroCentroid 32, fun _ => (1 : ℚ)]) 0 1 =
      MemoizedPartialDistances.partial_distance
        (MemoizedPartialDistances.newTable
          [zeroCentroid 32, fun _ => (1 : ℚ)]) 1 0
    ∧ MemoizedPartialDistances.partial_distance
        (MemoizedPartialDistances.newTable
          [zeroCentroid 32, fun _ => (1 : ℚ)]) 0 0 = some 0 :=
  partial_distance_symm_zero_small [zeroCentroid 32, fun _ => (1 : ℚ)]
    (by norm_num) 0 1 (by norm_num) (by norm_num)

/-- C10: `partial_distance` computes the flat index in unsigned 16-bit
arithmetic; for at most 256 centroids the lookup returns the stored entry
for the pair `(i, j)`, while for more than 256 centroids some valid pair's
16-bit index reduces modulo `2^16` and no longer equals the flat position
`i * size + j` of that pair. -/
theorem partial_distance_u16_index {w : ℕ} (vs : List (Centroid w)) (i j : ℕ)
    (hi : i < vs.length) (hj : j < vs.length) :
    (vs.length ≤ 256 →
      MemoizedPartialDistances.partial_distance
          (MemoizedPartialDistances.newTable vs) i j =
        some (euclidean_partial_distance
          (vs.getD i (zeroCentroid w)) (vs.getD j (zeroCentroid w))))
    ∧ (256 < vs.length →
      ∃ a b, a < vs.length ∧ b < vs.length ∧
        MemoizedPartialDistances.tableIndex vs.length a b ≠
          a * vs.length + b) := by
  refine ⟨fun hs => partial_distance_newTable_of_small vs hs i j hi hj, ?_⟩
  intro hgt
  refine ⟨vs.length - 1, vs.length - 1, by omega, by omega, ?_⟩
  have h1 : MemoizedPartialDistances.tableIndex vs.length
      (vs.length - 1) (vs.length - 1) < 65536 := by
    unfold MemoizedPartialDistances.tableIndex
    exact Nat.mod_lt _ (by norm_num)
  have h2 : 65536 ≤ (vs.length - 1) * vs.length + (vs.length - 1) := by
    have ha : 256 ≤ vs.length - 1 := by omega
    have hb : 257 ≤ vs.length := by omega
    have hab : 256 * 257 ≤ (vs.length - 1) * vs.length := Nat.mul_le_mul ha hb
    omega
  omega

/-- Witness for C10 at a concrete one-centroid engine. -/
theorem partial_distance_u16_index_witness :
    MemoizedPartialDistances.partial_distance
        (MemoizedPartialDistances.newTable [zeroCentroid 32]) 0 0 =
      some (euclidean_partial_distance
        ([zeroCentroid 32].getD 0 (zeroCentroid 32))
        ([zeroCentroid 32].getD 0 (zeroCentroid 32))) :=
  (partial_distance_u16_index [zeroCentroid 32] 0 0 (by norm_num)
    (by norm_num)).1 (by norm_num)

/-- C2: appending `k` new centroids with `store` rebuilds the distance
table so that the stored entry of every pair `(i, j)` of original indices
is unchanged — both tables hold the partial distance of centroids `i` and
`j` — and the rebuilt table is square of dimension `(old_count + k)²`. -/
theorem centroid_store_preserves_table {w : ℕ} (c : CentroidComparator w)
    (ks : List (Centroid w))
    (hinv : c.distances = MemoizedPartialDistances.newTable c.centroids)
    (i j : ℕ) (hi : i < c.centroids.length) (hj : j < c.centroids.length) :
    ((CentroidComparator.store c ks).1.distances.partial_distances[
        i * (c.centroids.length + ks.length) + j]? =
      c.distances.partial_distances[i * c.centroids.length + j]?
      ∧ c.distances.partial_distances[i * c.centroids.length + j]? =
        some (euclidean_partial_distance
          (c.centroids.getD i (zeroCentroid w))
          (c.centroids.getD j (zeroCentroid w))))
    ∧ (CentroidComparator.store c ks).1.distances.partial_distances.length =
        (c.centroids.length + ks.length) * (c.centroids.length + ks.length)
    ∧ (CentroidComparator.store c ks).1.distances.size =
        c.centroids.length + ks.length := by
  have hstore : (CentroidComparator.store c ks).1.distances =
      MemoizedPartialDistances.newTable (c.centroids ++ ks) := rfl
  have hlen : (c.centroids ++ ks).length = c.centroids.length + ks.length :=
    List.length_append _ _
  have hi' : i < (c.centroids ++ ks).length := by omega
  have hj' : j < (c.centroids ++ ks).length := by omega
  have hold : c.distances.partial_distances[i * c.centroids.length + j]? =
      some (euclidean_partial_distance
        (c.centroids.getD i (zeroCentroid w))
        (c.centroids.getD j (zeroCentroid w))) := by
    rw [hinv, newTable_get? c.centroids _ (flat_lt hi hj)]
    obtain ⟨hdiv, hmod⟩ := flat_div_mod (i := i) hj
    rw [hdiv, hmod]
  have hnew : (MemoizedPartialDistances.newTable (c.centroids ++ ks)
        ).partial_distances[i * (c.centroids.length + ks.length) + j]? =
      some (euclidean_partial_distance
        (c.centroids.getD i (zeroCentroid w))
        (c.centroids.getD j (zeroCentroid w))) := by
    have hb : i * (c.centroids ++ ks).length + j <
        (c.centroids ++ ks).length * (c.centroids ++ ks).length :=
      flat_lt hi' hj'
    rw [show i * (c.centroids.length + ks.length) + j =
        i * (c.centroids ++ ks).length + j from by rw [hlen],
      newTable_get? (c.centroids ++ ks) _ hb]
    obtain ⟨hdiv, hmod⟩ := flat_div_mod (i := i) hj'
    rw [hdiv, hmod, List.getD_append _ _ _ _ hi, List.getD_append _ _ _ _ hj]
  refine ⟨⟨?_, hold⟩, ?_, ?_⟩
  · rw [hstore, hnew, hold]
  · rw [hstore, newTable_length, hlen]
  · rw [hstore, newTable_size, hlen]

/-- Witness for C2: a one-centroid engine extended by one centroid. -/
theorem centroid_store_preserves_table_witness :
    let c : CentroidComparator 32 :=
      { distances := MemoizedPartialDistances.newTable [zeroCentroid 32]
        centroids := [zeroCentroid 32] }
    let ks : List (Centroid 32) := [fun _ => (1 : ℚ)]
    ((CentroidComparator.store c ks).1.distances.partial_distances[
        0 * (c.centroids.length + ks.length) + 0]? =
      c.distances.partial_distances[0 * c.centroids.length + 0]?
      ∧ c.distances.partial_distances[0 * c.centroids.length + 0]? =
        some (euclidean_partial_distance
          (c.centroids.getD 0 (zeroCentroid 32))
          (c.centroids.getD 0 (zeroCentroid 32))))
    ∧ (CentroidComparator.store c ks).1.distances.partial_distances.length =
        (c.centroids.length + ks.length) * (c.centroids.length + ks.length)
    ∧ (CentroidComparator.store c ks).1.distances.size =
        c.centroids.length + ks.length :=
  centroid_store_preserves_table
    { distances := MemoizedPartialDistances.newTable [zeroCentroid 32]
      centroids := [zeroCentroid 32] }
    [fun _ => (1 : ℚ)] rfl 0 0 (by norm_num) (by norm_num)

/-- C4: deserializing a centroid file or a quantized-vector file whose byte
size is not an exact multiple of the fixed record width fails (the source's
`assert_eq!(0, size % record_width)` aborts): trailing bytes are never
silently dropped. -/
theorem deserialize_rejects_misaligned (fc : ByteFile Centroid32)
    (idx : ByteFile Centroid32) (fq : ByteFile Quantized32Embedding)
    (h1 : fc.size % CENTROID_32_BYTE_LENGTH ≠ 0)
    (h2 : fq.size % quantizedByteLength QUANTIZED_32_EMBEDDING_LENGTH ≠ 0) :
    CentroidComparator.deserialize fc = none
    ∧ QuantizedComparator.deserialize idx fq = none := by
  have h1' : ¬fc.size % centroidByteLength 32 = 0 := h1
  refine ⟨?_, ?_⟩
  · unfold CentroidComparator.deserialize
    rw [if_neg h1']
  · unfold QuantizedComparator.deserialize
    cases hcc : CentroidComparator.deserialize idx with
    | none => rfl
    | some cc => simp [h2]

/-- Witness for C4: one-byte files are not multiples of any record width. -/
theorem deserialize_rejects_misaligned_witness :
    CentroidComparator.deserialize
        ({ size := 1, record := fun _ => zeroCentroid 32 } : ByteFile Centroid32)
      = none
    ∧ QuantizedComparator.deserialize
        ({ size := 0, record := fun _ => zeroCentroid 32 } : ByteFile Centroid32)
        ({ size := 1, record := fun _ _ => 0 } : ByteFile Quantized32Embedding)
      = none :=
  deserialize_rejects_misaligned
    { size := 1, record := fun _ => zeroCentroid 32 }
    { size := 0, record := fun _ => zeroCentroid 32 }
    { size := 1, record := fun _ _ => 0 }
    (by norm_num [CENTROID_32_BYTE_LENGTH])
    (by norm_num [quantizedByteLength, QUANTIZED_32_EMBEDDING_LENGTH])

/-- C6: serializing a `Centroid32Comparator` and deserializing the file
yields a comparator whose centroid list equals the original's and whose
distance table is exactly the table recomputed from that centroid list. -/
theorem centroid32_serialize_roundtrip (c : Centroid32Comparator) :
    CentroidComparator.deserialize (CentroidComparator.serialize c) =
      some { distances := MemoizedPartialDistances32.new c.centroids
             centroids := c.centroids } := by
  unfold CentroidComparator.deserialize CentroidComparator.serialize
  have hpos : 0 < centroidByteLength 32 := by norm_num [centroidByteLength]
  have hmod : c.centroids.length * centroidByteLength 32 %
      centroidByteLength 32 = 0 := Nat.mul_mod_left _ _
  rw [if_pos hmod]
  have hdiv : c.centroids.length * centroidByteLength 32 /
      centroidByteLength 32 = c.centroids.length :=
    Nat.mul_div_cancel _ hpos
  rw [hdiv, range_map_getD c.centroids (zeroCentroid 32)]
  rfl

lemma collectSomes_map_some {α : Type} : ∀ l : List α,
    collectSomes (l.map some) = some l
  | [] => rfl
  | x :: xs => by simp [collectSomes, collectSomes_map_some xs]

/-- C1: for any pair of quantized embeddings whose per-chunk partial
distance lookups succeed with values `d k`, `compare_raw` returns the
square root of the sum over all chunk positions `k` of the bound centroid
engine's `partial_distance(q1[k], q2[k])`, in both width variants. -/
theorem quantized_compare_raw_is_sqrt_sum (c32 : Quantized32Comparator)
    (c16 : Quantized16Comparator) (q1 q2 : Quantized32Embedding)
    (p1 p2 : Quantized16Embedding)
    (d32 : Fin QUANTIZED_32_EMBEDDING_LENGTH → ℚ)
    (d16 : Fin QUANTIZED_16_EMBEDDING_LENGTH → ℚ)
    (h32 : ∀ k, MemoizedPartialDistances.partial_distance c32.cc.distances
      (q1 k) (q2 k) = some (d32 k))
    (h16 : ∀ k, MemoizedPartialDistances.partial_distance c16.cc.distances
      (p1 k) (p2 k) = some (d16 k)) :
    Quantized32Comparator.compare_raw c32 q1 q2 =
      some (Real.sqrt ((∑ k, d32 k : ℚ) : ℝ))
    ∧ Quantized16Comparator.compare_raw c16 p1 p2 =
      some (Real.sqrt ((∑ k, d16 k : ℚ) : ℝ)) := by
  refine ⟨?_, ?_⟩
  · have hfn : (List.ofFn fun ix => MemoizedPartialDistances.partial_distance
        c32.cc.distances (q1 ix) (q2 ix)) = (List.ofFn d32).map some := by
      rw [List.map_ofFn]
      congr 1
      funext ix
      exact h32 ix
    unfold Quantized32Comparator.compare_raw
    rw [hfn, collectSomes_map_some, Option.map_some']
    rw [show sum_48 (List.ofFn d32) = ∑ k, d32 k from by
      rw [sum_48, List.sum_ofFn]]
  · have hfn : (List.ofFn fun ix => MemoizedPartialDistances.partial_distance
        c16.cc.distances (p1 ix) (p2 ix)) = (List.ofFn d16).map some := by
      rw [List.map_ofFn]
      congr 1
      funext ix
      exact h16 ix
    unfold Quantized16Comparator.compare_raw
    rw [hfn, collectSomes_map_some, Option.map_some']
    rw [show sum_96 (List.ofFn d16) = ∑ k, d16 k from by
      rw [sum_96, List.sum_ofFn]]

/-- Witness for C1: one-centroid engines, both codes all zero. -/
theorem quantized_compare_raw_is_sqrt_sum_witness :
    Quantized32Comparator.compare_raw
        { cc := { distances := MemoizedPartialDistances.newTable
                    [zeroCentroid 32]
                  centroids := [zeroCentroid 32] }
          data := [] } (fun _ => 0) (fun _ => 0) =
      some (Real.sqrt ((∑ _k : Fin QUANTIZED_32_EMBEDDING_LENGTH, (0 : ℚ) : ℚ) : ℝ))
    ∧ Quantized16Comparator.compare_raw
        { cc := { distances := MemoizedPartialDistances.newTable
                    [zeroCentroid 16]
                  centroids := [zeroCentroid 16] }
          data := [] } (fun _ => 0) (fun _ => 0) =
      some (Real.sqrt ((∑ _k : Fin QUANTIZED_16_EMBEDDING_LENGTH, (0 : ℚ) : ℚ) : ℝ)) :=
  quantized_compare_raw_is_sqrt_sum
    { cc := { distances := MemoizedPartialDistances.newTable [zeroCentroid 32]
              centroids := [zeroCentroid 32] }
      data := [] }
    { cc := { distances := MemoizedPartialDistances.newTable [zeroCentroid 16]
              centroids := [zeroCentroid 16] }
      data := [] }
    (fun _ => 0) (fun _ => 0) (fun _ => 0) (fun _ => 0)
    (fun _ => 0) (fun _ => 0)
    (fun _k => by
      rw [partial_distance_newTable_of_small [zeroCentroid 32] (by norm_num)
        0 0 (by norm_num) (by norm_num)]
      simp [euclidean_partial_distance_self])
    (fun _k => by
      rw [partial_distance_newTable_of_small [zeroCentroid 16] (by norm_num)
        0 0 (by norm_num) (by norm_num)]
      simp [euclidean_partial_distance_self])

lemma chunkedChunks_nil {T : Type} : chunkedChunks ([] : List T) = [] := by
  simp [chunkedChunks]

lemma chunkedChunks_flatten {T : Type} :
    ∀ n (l : List T), l.length ≤ n → (chunkedChunks l).flatten = l := by
  intro n
  induction n with
  | zero =>
    intro l hl
    have : l = [] := List.length_eq_zero.mp (Nat.le_zero.mp hl)
    subst this
    simp [chunkedChunks]
  | succ n ih =>
    intro l hl
    cases l with
    | nil => simp [chunkedChunks]
    | cons x xs =>
      rw [chunkedChunks]
      have hdrop : ((x :: xs).drop 16384).length ≤ n := by
        simp only [List.length_drop, List.length_cons] at hl ⊢
        omega
      rw [List.flatten_cons, ih _ hdrop, List.take_append_drop]

lemma chunkedChunks_mem {T : Type} :
    ∀ n (l : List T), l.length ≤ n → ∀ b ∈ chunkedChunks l,
      b.length ≤ 16384 ∧ b ≠ [] := by
  intro n
  induction n with
  | zero =>
    intro l hl
    have : l = [] := List.length_eq_zero.mp (Nat.le_zero.mp hl)
    subst this
    simp [chunkedChunks]
  | succ n ih =>
    intro l hl b hb
    cases l with
    | nil => simp [chunkedChunks] at hb
    | cons x xs =>
      rw [chunkedChunks] at hb
      rcases List.mem_cons.mp hb with h | h
      · subst h
        refine ⟨by simp [List.length_take], by simp⟩
      · have hdrop : ((x :: xs).drop 16384).length ≤ n := by
          simp only [List.length_drop, List.length_cons] at hl ⊢
          omega
        exact ih _ hdrop b h

/-- C9: `vector_chunks()` cuts the domain's `n` vectors into a finite
sequence of nonempty batches of at most 16384 vectors whose concatenation
is exactly the domain's vectors in order; an empty domain yields the empty
sequence, not an error. -/
theorem vector_chunks_partition (c : OpenAIComparator) :
    (∀ b ∈ OpenAIComparator.vector_chunks c, b.length ≤ 16384 ∧ b ≠ [])
    ∧ (OpenAIComparator.vector_chunks c).flatten = c.domain
    ∧ (c.domain = [] → OpenAIComparator.vector_chunks c = []) := by
  refine ⟨fun b hb => chunkedChunks_mem c.domain.length c.domain
    (le_refl _) b hb,
    chunkedChunks_flatten c.domain.length c.domain (le_refl _), fun h => ?_⟩
  unfold OpenAIComparator.vector_chunks
  rw [h, chunkedChunks_nil]

/-- Witness for C9 at a one-vector domain. -/
theorem vector_chunks_partition_witness :
    ([fun _ => (0 : ℚ)] : List Embedding).length ≤ 16384
    ∧ ([fun _ => (0 : ℚ)] : List Embedding) ≠ [] :=
  (vector_chunks_partition { domain := [fun _ => (0 : ℚ)] }).1
    [fun _ => (0 : ℚ)]
    (by unfold OpenAIComparator.vector_chunks
        rw [chunkedChunks]
        simp)

/-!
## Lemmas on the concatenate pipeline
-/

lemma concatenate_derived_quantizer {E Q : Type} :
    ∀ (loader : List (Bool × List E)) (d : PqDerivedDomain E Q),
      (PqDerivedDomain.concatenate_derived d loader).2.1.quantizer =
        d.quantizer := by
  intro loader
  induction loader with
  | nil => intro d; rfl
  | cons c rest ih =>
    intro d
    obtain ⟨readOk, chunk⟩ := c
    by_cases hr : readOk
    · subst hr
      simp only [PqDerivedDomain.concatenate_derived, if_true]
      exact ih _
    · simp only [PqDerivedDomain.concatenate_derived, if_neg hr]

lemma concatenate_derived_extends {E Q : Type} :
    ∀ (loader : List (Bool × List E)) (d : PqDerivedDomain E Q),
      ∃ extra, (PqDerivedDomain.concatenate_derived d loader).2.1.file =
        d.file ++ extra := by
  intro loader
  induction loader with
  | nil => intro d; exact ⟨[], by simp [PqDerivedDomain.concatenate_derived]⟩
  | cons c rest ih =>
    intro d
    obtain ⟨readOk, chunk⟩ := c
    by_cases hr : readOk
    · subst hr
      simp only [PqDerivedDomain.concatenate_derived, if_true]
      obtain ⟨extra, hextra⟩ := ih { d with file := d.file ++ chunk.map d.quantizer }
      exact ⟨chunk.map d.quantizer ++ extra, by rw [hextra]; simp⟩
    · exact ⟨[], by simp [PqDerivedDomain.concatenate_derived, if_neg hr]⟩

lemma concatenate_derived_success {E Q : Type} :
    ∀ (loader : List (Bool × List E)) (d : PqDerivedDomain E Q),
      (PqDerivedDomain.concatenate_derived d loader).1 = true →
      (PqDerivedDomain.concatenate_derived d loader).2.1 =
        { file := d.file ++ (fileContent loader).map d.quantizer
          quantizer := d.quantizer } := by
  intro loader
  induction loader with
  | nil =>
    intro d _
    simp [PqDerivedDomain.concatenate_derived, fileContent]
  | cons c rest ih =>
    intro d hsucc
    obtain ⟨readOk, chunk⟩ := c
    by_cases hr : readOk
    · subst hr
      simp only [PqDerivedDomain.concatenate_derived, if_true] at hsucc ⊢
      rw [ih _ hsucc]
      simp [fileContent]
    · simp only [PqDerivedDomain.concatenate_derived, if_neg hr] at hsucc
      exact absurd hsucc (by decide)

/-- Relation between a registry entry before and after a (possibly failed)
`concatenate_file`: same name, same quantizer, output file extended by the
records appended before any failure. -/
def DeriverExtends {E Q : Type} (nd nd' : String × PqDerivedDomain E Q) :
    Prop :=
  nd'.1 = nd.1 ∧ nd'.2.quantizer = nd.2.quantizer ∧
    ∃ extra, nd'.2.file = nd.2.file ++ extra

lemma concatenateDerivers_events {E Q : Type} :
    ∀ (reg : List (String × PqDerivedDomain E Q))
      (loader : List (Bool × List E)) (e : ConcatEvent E Q),
      e ∈ (Domain.concatenateDerivers reg loader).2.2 →
      ∃ nm qs, e = ConcatEvent.derivedAppend nm qs := by
  intro reg
  induction reg with
  | nil => intro loader e he; simp [Domain.concatenateDerivers] at he
  | cons nd rest ih =>
    intro loader e he
    obtain ⟨nm, d⟩ := nd
    by_cases hs : (PqDerivedDomain.concatenate_derived d loader).1 = true
    · simp only [Domain.concatenateDerivers, hs, if_true] at he
      rcases List.mem_append.mp he with h | h
      · obtain ⟨qs, _, rfl⟩ := List.mem_map.mp h
        exact ⟨nm, _, rfl⟩
      · exact ih loader e h
    · simp only [Domain.concatenateDerivers, hs, if_false,
        Bool.false_eq_true] at he
      obtain ⟨qs, _, rfl⟩ := List.mem_map.mp he
      exact ⟨nm, _, rfl⟩

lemma concatenateDerivers_success {E Q : Type} :
    ∀ (reg : List (String × PqDerivedDomain E Q))
      (loader : List (Bool × List E)),
      (Domain.concatenateDerivers reg loader).1 = true →
      (Domain.concatenateDerivers reg loader).2.1 =
        reg.map fun nd => (nd.1,
          { file := nd.2.file ++ (fileContent loader).map nd.2.quantizer
            quantizer := nd.2.quantizer }) := by
  intro reg
  induction reg with
  | nil => intro loader _; rfl
  | cons nd rest ih =>
    intro loader hsucc
    obtain ⟨nm, d⟩ := nd
    by_cases hs : (PqDerivedDomain.concatenate_derived d loader).1 = true
    · simp only [Domain.concatenateDerivers, hs, if_true] at hsucc ⊢
      rw [List.map_cons, concatenate_derived_success loader d hs,
        ih loader hsucc]
    · simp only [Domain.concatenateDerivers, hs, if_false,
        Bool.false_eq_true] at hsucc

lemma concatenateDerivers_extends {E Q : Type} :
    ∀ (reg : List (String × PqDerivedDomain E Q))
      (loader : List (Bool × List E)),
      List.Forall₂ DeriverExtends reg
        (Domain.concatenateDerivers reg loader).2.1 := by
  intro reg
  induction reg with
  | nil => intro loader; simp [Domain.concatenateDerivers]
  | cons nd rest ih =>
    intro loader
    obtain ⟨nm, d⟩ := nd
    by_cases hs : (PqDerivedDomain.concatenate_derived d loader).1 = true
    · simp only [Domain.concatenateDerivers, hs, if_true]
      exact List.Forall₂.cons
        ⟨rfl, concatenate_derived_quantizer loader d,
          concatenate_derived_extends loader d⟩ (ih loader)
    · simp only [Domain.concatenateDerivers, hs, if_false,
        Bool.false_eq_true]
      refine List.Forall₂.cons
        ⟨rfl, concatenate_derived_quantizer loader d,
          concatenate_derived_extends loader d⟩ ?_
      exact List.forall₂_same.mpr fun x _ => ⟨rfl, rfl, ⟨[], by simp⟩⟩

/-- A concrete one-deriver domain over rational records. -/
def dom1 : Domain ℚ ℚ :=
  { name := "d", file := [],
    derived_domains := [("q", { file := [], quantizer := id })] }

/-- A loader whose second chunk read fails. -/
def loader1 : List (Bool × List ℚ) := [(true, [1]), (false, [])]

/-- A loader with a single successfully-read chunk. -/
def loader2 : List (Bool × List ℚ) := [(true, [1])]

/-- Counterexample for C3: when the second chunk read fails, the whole
`concatenate_file` call fails, yet the deriver's output file has grown by
the first chunk — partial derived state IS retained. -/
theorem concatenate_partial_state_cex :
    (Domain.concatenate_file dom1 loader1).1 = none
    ∧ (Domain.concatenate_file dom1 loader1).2.1.derived_domains.map
        (fun nd => nd.2.file.length) ≠
      dom1.derived_domains.map (fun nd => nd.2.file.length) := by
  refine ⟨rfl, ?_⟩
  decide

/-- C3 (amended): if any deriver's transform fails, the whole append fails
(`none`) and the primary store's record count is unchanged; each registered
deriver keeps its name and quantizer, but its output file retains the
records appended before the failure (it is the old file extended by some
suffix, possibly nonempty). -/
theorem concatenate_failure_keeps_primary {E Q : Type} (dom : Domain E Q)
    (loader : List (Bool × List E))
    (h : (Domain.concatenate_file dom loader).1 = none) :
    (Domain.concatenate_file dom loader).2.1.file = dom.file
    ∧ List.Forall₂ DeriverExtends dom.derived_domains
        (Domain.concatenate_file dom loader).2.1.derived_domains := by
  cases hph : (Domain.concatenateDerivers dom.derived_domains loader).1 with
  | true => simp [Domain.concatenate_file, hph] at h
  | false =>
    constructor
    · simp [Domain.concatenate_file, hph]
    · simp only [Domain.concatenate_file, hph, Bool.false_eq_true, if_false]
      exact concatenateDerivers_extends dom.derived_domains loader

/-- Witness for the amended C3 at the concrete failing run. -/
theorem concatenate_failure_keeps_primary_witness :
    (Domain.concatenate_file dom1 loader1).2.1.file = dom1.file
    ∧ List.Forall₂ DeriverExtends dom1.derived_domains
        (Domain.concatenate_file dom1 loader1).2.1.derived_domains :=
  concatenate_failure_keeps_primary dom1 loader1 rfl

/-- C7: if, during a `concatenate_file` call, the event advancing the
primary store's record count occurs, then it is the last event of the call
and at that point every registered deriver has already appended the
quantization of all incoming records — no reachable intermediate state has
the primary count incremented while a deriver lags. -/
theorem primary_append_last_and_derivers_caught_up {E Q : Type}
    (dom : Domain E Q) (loader : List (Bool × List E)) (i : ℕ) (rs : List E)
    (h : (Domain.concatenate_file dom loader).2.2[i]? =
      some (ConcatEvent.primaryAppend rs)) :
    i + 1 = (Domain.concatenate_file dom loader).2.2.length
    ∧ (Domain.concatenate_file dom loader).2.1.file =
        dom.file ++ fileContent loader
    ∧ (Domain.concatenate_file dom loader).2.1.derived_domains =
        dom.derived_domains.map fun nd => (nd.1,
          { file := nd.2.file ++ (fileContent loader).map nd.2.quantizer
            quantizer := nd.2.quantizer }) := by
  cases hph : (Domain.concatenateDerivers dom.derived_domains loader).1 with
  | false =>
    simp only [Domain.concatenate_file, hph, Bool.false_eq_true, if_false] at h
    have hmem : ConcatEvent.primaryAppend rs ∈
        (Domain.concatenateDerivers dom.derived_domains loader).2.2 :=
      List.getElem?_mem h
    obtain ⟨nm, qs, heq⟩ :=
      concatenateDerivers_events dom.derived_domains loader _ hmem
    exact absurd heq (by simp)
  | true =>
    simp only [Domain.concatenate_file, hph, if_true] at h ⊢
    have hlast : i =
        (Domain.concatenateDerivers dom.derived_domains loader).2.2.length := by
      by_cases hi :
          i < (Domain.concatenateDerivers dom.derived_domains loader).2.2.length
      · rw [List.getElem?_append_left hi] at h
        obtain ⟨nm, qs, heq⟩ := concatenateDerivers_events dom.derived_domains
          loader _ (List.getElem?_mem h)
        exact absurd heq (by simp)
      · push_neg at hi
        rw [List.getElem?_append_right hi] at h
        rcases hk : i -
            (Domain.concatenateDerivers dom.derived_domains loader).2.2.length
          with _ | k
        · omega
        · rw [hk] at h
          simp at h
    refine ⟨?_, by simp, concatenateDerivers_success dom.derived_domains loader hph⟩
    rw [hlast]
    simp

/-- Witness for C7 at a concrete successful run of the one-deriver domain. -/
theorem primary_append_last_witness :
    1 + 1 = (Domain.concatenate_file dom1 loader2).2.2.length
    ∧ (Domain.concatenate_file dom1 loader2).2.1.file =
        dom1.file ++ fileContent loader2
    ∧ (Domain.concatenate_file dom1 loader2).2.1.derived_domains =
        dom1.derived_domains.map fun nd => (nd.1,
          { file := nd.2.file ++ (fileContent loader2).map nd.2.quantizer
            quantizer := nd.2.quantizer }) :=
  primary_append_last_and_derivers_caught_up dom1 loader2 1 [1] rfl

/-- C8: `create_derived` with an already-registered name fails (the
source's `assert!` aborts) leaving the whole registry — in particular the
first registration — unchanged, and a failure of the training step leaves
the registry unchanged as well. -/
theorem create_derived_duplicate_and_training_failure {E Q : Type}
    (dom : Domain E Q) (nm : String) (t : Option (PqDerivedDomain E Q)) :
    ((dom.derived_domains.any fun nd => nd.1 = nm) = true →
      Domain.create_derived dom nm t = (false, dom))
    ∧ Domain.create_derived dom nm none = (false, dom) := by
  constructor
  · intro h
    simp [Domain.create_derived, h]
  · by_cases h : (dom.derived_domains.any fun nd => nd.1 = nm) = true
    · simp [Domain.create_derived, h]
    · simp only [Domain.create_derived, h, Bool.false_eq_true, if_false]

/-- Witness for C8: re-registering the already-present name fails without
altering the domain. -/
theorem create_derived_duplicate_witness :
    Domain.create_derived dom1 "q" none = (false, dom1) :=
  (create_derived_duplicate_and_training_failure dom1 "q" none).1 rfl

end Vectorlink
